import Mathlib

namespace Lab6

/-- Entity kinds, from `enum class NPCType` in main.cpp. -/
inductive NPCType
  | PRINCESS
  | DRAGON
  | KNIGHT
deriving DecidableEq, Repr

/-- Entity record, from `class NPC` (name, x, y, alive) plus the dynamic kind tag. -/
structure NPC where
  kind : NPCType
  name : String
  x : Int
  y : Int
  alive : Bool
deriving DecidableEq, Repr

/-- Model of `NPC::distanceTo(other) <= range`: the C++ compares
`sqrt((x1-x2)^2 + (y1-y2)^2)` (a double) with `range` (a double).  Over the reals,
`sqrt d2 <= range` iff `0 <= range` and `d2 <= range^2`; writing the rational
`range` as `num/den` (with `den > 0`), the latter is `d2 * den^2 <= num^2`,
which is the Int comparison used here (kernel-computable, unlike Rat arithmetic). -/
def distLE (a b : NPC) (range : Rat) : Bool :=
  let d2 : Int := (a.x - b.x) * (a.x - b.x) + (a.y - b.y) * (a.y - b.y)
  decide (0 ≤ range.num ∧ d2 * (range.den : Int) * (range.den : Int) ≤ range.num * range.num)

/-- One direction of `BattleVisitor`: does attacker `a` kill victim `v`?
From `BattleVisitor::visit(Princess&)` (empty body), `visit(Dragon&)` and
`visit(Knight&)`: the victim must be alive, within range, and of the kind the
attacker's rule targets.  The attacker's own aliveness is never checked. -/
def wouldKill (a v : NPC) (range : Rat) : Bool :=
  match a.kind with
  | .PRINCESS => false
  | .DRAGON => v.alive && distLE a v range && (v.kind == NPCType.PRINCESS)
  | .KNIGHT => v.alive && distLE a v range && (v.kind == NPCType.DRAGON)

/-- `visitor.setOther(npcs[vic]); npcs[atk]->accept(visitor)`: if the rule fires,
mark the victim dead and record the kill notification `(atk, vic)`. -/
def applyVisit (range : Rat) (st : List NPC × List (Nat × Nat)) (atk vic : Nat) :
    List NPC × List (Nat × Nat) :=
  match st.1[atk]?, st.1[vic]? with
  | some a, some v =>
      if wouldKill a v range then
        (st.1.set vic { v with alive := false }, st.2 ++ [(atk, vic)])
      else st
  | _, _ => st

/-- Body of the inner `j` loop of `Dungeon::battle`: skip a dead `j`, else run
direction i→j and then direction j→i on the updated state. -/
def innerStep (range : Rat) (i : Nat) (st : List NPC × List (Nat × Nat)) (j : Nat) :
    List NPC × List (Nat × Nat) :=
  match st.1[j]? with
  | some vj => if vj.alive then applyVisit range (applyVisit range st i j) j i else st
  | none => st

/-- Body of the outer `i` loop of `Dungeon::battle`: skip `i` if it is dead at the
start of its iteration, else fold the inner loop over `j = i+1 .. size-1`. -/
def outerStep (range : Rat) (st : List NPC × List (Nat × Nat)) (i : Nat) :
    List NPC × List (Nat × Nat) :=
  match st.1[i]? with
  | some vi =>
      if vi.alive then (List.range' (i + 1) (st.1.length - (i + 1))).foldl (innerStep range i) st
      else st
  | none => st

/-- The pair loops of `Dungeon::battle`, before the dead are erased. -/
def battleCore (npcs : List NPC) (range : Rat) : List NPC × List (Nat × Nat) :=
  (List.range npcs.length).foldl (outerStep range) (npcs, [])

/-- `Dungeon::battle(range)`: run all pairs, then erase the dead
(`remove_if !isAlive`).  Returns the surviving registry and the kill
notifications `(killer index, victim index)` in emission order. -/
def battle (npcs : List NPC) (range : Rat) : List NPC × List (Nat × Nat) :=
  ((battleCore npcs range).1.filter (fun n => n.alive), (battleCore npcs range).2)

/-! Decimal rendering and parsing of integers, modelling `operator<<(int)` and
`operator>>(int&)` of the C++ iostreams at whole-token granularity. -/

/-- The decimal digit character for `d < 10` (and `'9'` for impossible inputs). -/
def digitChar : Nat → Char
  | 0 => '0' | 1 => '1' | 2 => '2' | 3 => '3' | 4 => '4'
  | 5 => '5' | 6 => '6' | 7 => '7' | 8 => '8' | _ => '9'

/-- Decimal digits, most significant first; the fuel argument (any bound larger
than the number) only makes the recursion structural, so the kernel can
evaluate it. -/
def natDigitsAux : Nat → Nat → List Char
  | 0, _ => []
  | fuel + 1, n =>
      if n < 10 then [digitChar n] else natDigitsAux fuel (n / 10) ++ [digitChar (n % 10)]

/-- Decimal digits of a natural number, most significant first. -/
def natDigits (n : Nat) : List Char := natDigitsAux (n + 1) n

/-- Model of `stream << (x : int)`: decimal, `-` sign for negatives. -/
def renderInt (x : Int) : String :=
  if x < 0 then ⟨'-' :: natDigits x.natAbs⟩ else ⟨natDigits x.toNat⟩

/-- Accumulating decimal reader: fails on the first non-digit character. -/
def parseNatAux (acc : Nat) : List Char → Option Nat
  | [] => some acc
  | c :: cs =>
      if 48 ≤ c.toNat ∧ c.toNat ≤ 57 then parseNatAux (acc * 10 + (c.toNat - 48)) cs
      else none

/-- A non-empty all-digit character list, read as a natural number. -/
def parseNatChars : List Char → Option Nat
  | [] => none
  | c :: cs => parseNatAux 0 (c :: cs)

/-- Signed variant: an optional leading `-`, then digits. -/
def parseIntChars : List Char → Option Int
  | [] => none
  | c :: cs =>
      if c = '-' then (parseNatChars cs).map (fun n => -(Int.ofNat n))
      else (parseNatChars (c :: cs)).map Int.ofNat

/-- Model of `stream >> (x : int)` applied to one whitespace-delimited token. -/
def tokInt? (s : String) : Option Int := parseIntChars s.data

/-! Factory (`NPCFactory`), registry operations (`Dungeon`). -/

/-- `NPCFactory::createNPC`: build the record; `alive` starts `true`. -/
def createNPC (k : NPCType) (name : String) (x y : Int) : NPC := ⟨k, name, x, y, true⟩

/-- The uppercase keyword written by `Dungeon::saveToFile` for each kind. -/
def kindKeyword : NPCType → String
  | .PRINCESS => "PRINCESS"
  | .DRAGON => "DRAGON"
  | .KNIGHT => "KNIGHT"

/-- The keyword test chain of `NPCFactory::loadFromStream`. -/
def keywordKind (s : String) : Option NPCType :=
  if s = "PRINCESS" then some NPCType.PRINCESS
  else if s = "DRAGON" then some NPCType.DRAGON
  else if s = "KNIGHT" then some NPCType.KNIGHT
  else none

/-- One `NPCFactory::loadFromStream` attempt, given the four extracted tokens:
fails on a non-integer coordinate token, an unrecognized kind keyword, or a
coordinate outside [0,500]. -/
def parseNPC (t n xs ys : String) : Option NPC :=
  match tokInt? xs, tokInt? ys with
  | some x, some y =>
      match keywordKind t with
      | some k =>
          if x < 0 ∨ x > 500 ∨ y < 0 ∨ y > 500 then none else some (createNPC k n x y)
      | none => none
  | _, _ => none

/-- `Dungeon::loadFromFile` after `npcs.clear()`: repeatedly call
`loadFromStream` on the token stream and stop at its first failure (the C++
`while ((npc = loadFromStream(file)))` exits on the first null result, also
when input remains). -/
def loadAll : List String → List NPC
  | t :: n :: xs :: ys :: rest =>
      match parseNPC t n xs ys with
      | some npc => npc :: loadAll rest
      | none => []
  | _ => []

/-- `Dungeon::addNPC`: out-of-range coordinates are reported
(the returned message models the `cout` line) and nothing else happens;
otherwise the factory-built entity is appended. -/
def coordErr : String := "Неверные координаты!"

def addNPC (npcs : List NPC) (k : NPCType) (name : String) (x y : Int) :
    List NPC × Option String :=
  if x < 0 ∨ x > 500 ∨ y < 0 ∨ y > 500 then (npcs, some coordErr)
  else (npcs ++ [createNPC k name x y], none)

/-- The Russian kind label printed by `Dungeon::print`. -/
def kindLabel : NPCType → String
  | .PRINCESS => "Принцесса"
  | .DRAGON => "Дракон"
  | .KNIGHT => "Рыцарь"

/-- One output line of `Dungeon::print`. -/
def renderPrint (n : NPC) : String :=
  kindLabel n.kind ++ " " ++ n.name ++ " at (" ++ renderInt n.x ++ ", " ++ renderInt n.y ++ ")"

/-- `Dungeon::print`: one line per living entity, dead ones skipped. -/
def printLines (npcs : List NPC) : List String :=
  (npcs.filter (fun n => n.alive)).map renderPrint

/-- The four whitespace-delimited tokens `saveToFile` writes for one entity. -/
def saveTokensOf (n : NPC) : List String :=
  [kindKeyword n.kind, n.name, renderInt n.x, renderInt n.y]

/-- `Dungeon::saveToFile`, at token granularity: the file holds, for each living
entity in order, the kind keyword, the name, and the two coordinates, separated
by whitespace.  (`operator>>` extraction is purely token-based, so the file is
modelled as its token sequence; this is exact whenever names are non-empty and
contain no whitespace, which holds for every name the program can read.) -/
def saveTokens (npcs : List NPC) : List String :=
  ((npcs.filter (fun n => n.alive)).map saveTokensOf).flatten

/-! The command loop of `main`, over a whole-token model of `std::cin`.
A stream is its remaining tokens plus the fail flag; once the flag is set every
further extraction fails, as with `std::istream`. -/

/-- Remaining input tokens and the stream's fail state. -/
abbrev IStream := List String × Bool

/-- Model of `cin >> (s : string)` where the caller tests success
(the loop condition `cin >> command`): yields the next token, or `none` once
the stream is failed or exhausted (reading at end of input sets the fail bit). -/
def readTok : IStream → Option String × IStream
  | (toks, true) => (none, (toks, true))
  | ([], false) => (none, ([], true))
  | (t :: ts, false) => (some t, (ts, false))

/-- Model of `cin >> (s : string)` where the caller ignores success: a failed
extraction leaves the default-constructed empty string. -/
def readTokD (s : IStream) : String × IStream :=
  match readTok s with
  | (some t, s1) => (t, s1)
  | (none, s1) => ("", s1)

/-- Model of `cin >> (x : int)`: a token that is not entirely an optionally
signed decimal numeral fails the extraction, setting the fail bit, leaving the
token unconsumed and (as since C++11 on conversion failure) writing 0. -/
def readIntTok : IStream → Int × IStream
  | (toks, true) => (0, (toks, true))
  | ([], false) => (0, ([], true))
  | (t :: ts, false) =>
      match tokInt? t with
      | some v => (v, (ts, false))
      | none => (0, (t :: ts, true))

/-- Decimal-fraction part of a double token: digits after the dot. -/
def parseFrac (ip : Nat) (cs : List Char) : Option Rat :=
  match parseNatChars cs with
  | some f => some ((ip : Rat) + (f : Rat) / ((10 : Rat) ^ cs.length))
  | none => none

/-- Model of parsing one token as a double (`cin >> (range : double)`): an
optional sign, an integer part, and an optional `.` fraction. -/
def parseRatChars (cs : List Char) : Option Rat :=
  match cs with
  | '-' :: rest => (parseRatCore rest).map (fun q => -q)
  | _ => parseRatCore cs
where
  parseRatCore (cs : List Char) : Option Rat :=
    match cs.span (fun c => c ≠ '.') with
    | (ip, []) => (parseNatChars ip).map (fun n => (n : Rat))
    | (ip, _ :: fp) =>
        match parseNatChars ip with
        | some n => parseFrac n fp
        | none => none

/-- Model of `cin >> (x : double)` on one whitespace-delimited token. -/
def readRatTok : IStream → Rat × IStream
  | (toks, true) => (0, (toks, true))
  | ([], false) => (0, ([], true))
  | (t :: ts, false) =>
      match parseRatChars t.data with
      | some v => (v, (ts, false))
      | none => (0, (t :: ts, true))

/-- The lowercase kind keywords accepted by the `add` command in `main`. -/
def lowerKind (s : String) : Option NPCType :=
  if s = "princess" then some NPCType.PRINCESS
  else if s = "dragon" then some NPCType.DRAGON
  else if s = "knight" then some NPCType.KNIGHT
  else none

/-- The filesystem the `save`/`load` commands touch, as a path-to-token-list
association; a missing file reads as an immediately failing stream, i.e. no
tokens. -/
abbrev FS := List (String × List String)

def fsWrite (fs : FS) (path : String) (toks : List String) : FS :=
  (path, toks) :: fs.filter (fun e => e.1 ≠ path)

def fsRead (fs : FS) (path : String) : List String :=
  match fs.lookup path with
  | some toks => toks
  | none => []

/-- Why the command loop stopped: the `exit` command, or `cin >> command`
failing (end of input, or a fail state set by an earlier bad extraction). -/
inductive ExitReason
  | exitCmd
  | readEnded
deriving DecidableEq, Repr

/-- Dispatch of one already-read command word, from the if/else chain in
`main`: consumes the command's arguments from the stream and performs its
effect.  Unknown kinds and unknown commands only print a message. -/
def doCmd (cmd : String) (s : IStream) (npcs : List NPC) (fs : FS) :
    IStream × List NPC × FS :=
  if cmd = "add" then
    let r1 := readTokD s
    let r2 := readTokD r1.2
    let r3 := readIntTok r2.2
    let r4 := readIntTok r3.2
    (r4.2,
      match lowerKind r1.1 with
      | some k => (addNPC npcs k r2.1 r3.1 r4.1).1
      | none => npcs,
      fs)
  else if cmd = "print" then (s, npcs, fs)
  else if cmd = "save" then
    let r := readTokD s
    (r.2, npcs, fsWrite fs r.1 (saveTokens npcs))
  else if cmd = "load" then
    let r := readTokD s
    (r.2, loadAll (fsRead fs r.1), fs)
  else if cmd = "battle" then
    let r := readRatTok s
    (r.2, (battle npcs r.1).1, fs)
  else (s, npcs, fs)

/-- The `while (cin >> command)` loop of `main`, with explicit fuel so the
recursion is structural (kernel-evaluable); `runLoop` supplies enough fuel, and
`runLoopF_congr` below shows any sufficient fuel gives the same result.
Returns the final registry, the final stream state, why the loop stopped, and
the final filesystem. -/
def runLoopF : Nat → IStream → List NPC → FS → List NPC × IStream × ExitReason × FS
  | 0, s, npcs, fs => (npcs, s, .readEnded, fs)
  | fuel + 1, s, npcs, fs =>
      match readTok s with
      | (none, s1) => (npcs, s1, .readEnded, fs)
      | (some cmd, s1) =>
          if cmd = "exit" then (npcs, s1, .exitCmd, fs)
          else
            let r := doCmd cmd s1 npcs fs
            runLoopF fuel r.1 r.2.1 r.2.2

/-- The command loop on a fresh stream: each iteration consumes at least the
command token, so `tokens + 1` fuel always suffices. -/
def runLoop (s : IStream) (npcs : List NPC) (fs : FS) :
    List NPC × IStream × ExitReason × FS :=
  runLoopF (s.1.length + 1) s npcs fs

/-- `main`: empty dungeon, run the loop on standard input, `return 0`. -/
def mainRun (toks : List String) : Int × (List NPC × IStream × ExitReason × FS) :=
  (0, runLoop (toks, false) [] [])

def regC1 : List NPC :=
  [⟨.KNIGHT, "K", 0, 0, true⟩, ⟨.DRAGON, "Dr", 0, 0, true⟩, ⟨.PRINCESS, "Pr", 0, 0, true⟩]

def regC9 : List NPC :=
  [⟨.DRAGON, "Dr", 0, 0, true⟩, ⟨.KNIGHT, "K", 0, 0, true⟩, ⟨.PRINCESS, "Pr", 0, 0, true⟩]

def c8input : List String := ["add", "knight", "K", "5", "abc", "print"]

/-! Scenario registries and token lists used by the claim theorems. -/

/-- Whitespace-free non-empty name and in-range coordinates: what is true of
every entity the program itself can create (names are read token-wise, so they
are non-empty and contain no whitespace; both `addNPC` and the load parser
enforce the coordinate bounds). -/
def goodNPC (n : NPC) : Prop :=
  n.name ≠ "" ∧ (∀ c ∈ n.name.data, c.isWhitespace = false) ∧
    0 ≤ n.x ∧ n.x ≤ 500 ∧ 0 ≤ n.y ∧ n.y ≤ 500

instance (n : NPC) : Decidable (goodNPC n) := by unfold goodNPC; infer_instance

/-- How one battle pass may change one registry slot: the identity fields are
untouched and the alive flag can only go from `true` to `false`. -/
def Evolves (a b : NPC) : Prop :=
  b.kind = a.kind ∧ b.name = a.name ∧ b.x = a.x ∧ b.y = a.y ∧
    (b.alive = true → a.alive = true)

def goodToks : List String := ["KNIGHT", "K", "1", "2"]

def badToks : List String := ["PRINCESS", "P", "600", "0"]

/-! Supporting lemmas: decimal roundtrip. -/

theorem digitChar_ne_dash (d : Nat) : digitChar d ≠ '-' := by
  rcases d with _|_|_|_|_|_|_|_|_|d
  · decide
  · decide
  · decide
  · decide
  · decide
  · decide
  · decide
  · decide
  · decide
  · show ('9' : Char) ≠ '-'
    decide

theorem digitChar_toNat (d : Nat) (h : d < 10) :
    48 ≤ (digitChar d).toNat ∧ (digitChar d).toNat ≤ 57 ∧ (digitChar d).toNat - 48 = d := by
  interval_cases d <;> decide

theorem parseNatAux_append (acc : Nat) (xs ys : List Char) :
    parseNatAux acc (xs ++ ys) =
      (parseNatAux acc xs).bind (fun a => parseNatAux a ys) := by
  induction xs generalizing acc with
  | nil => rfl
  | cons c cs ih =>
      simp only [List.cons_append, parseNatAux]
      split
      · exact ih _
      · rfl

theorem parseNatAux_natDigitsAux (fuel n acc : Nat) (h : n < fuel) :
    parseNatAux acc (natDigitsAux fuel n) =
      some (acc * 10 ^ (natDigitsAux fuel n).length + n) := by
  induction fuel generalizing n acc with
  | zero => omega
  | succ fuel ih =>
      by_cases h10 : n < 10
      · obtain ⟨h48, h57, hval⟩ := digitChar_toNat n h10
        simp only [natDigitsAux, if_pos h10, parseNatAux, if_pos (And.intro h48 h57), hval,
          List.length_singleton, pow_one]
      · have hdiv : n / 10 < n := Nat.div_lt_self (by omega) (by omega)
        have hrec : n / 10 < fuel := by omega
        obtain ⟨h48, h57, hval⟩ := digitChar_toNat (n % 10) (Nat.mod_lt _ (by omega))
        simp only [natDigitsAux, if_neg h10, parseNatAux_append, ih _ _ hrec, Option.some_bind,
          parseNatAux, if_pos (And.intro h48 h57), hval, List.length_append,
          List.length_singleton]
        have hpow : acc * 10 ^ ((natDigitsAux fuel (n / 10)).length + 1) =
            acc * 10 ^ (natDigitsAux fuel (n / 10)).length * 10 := by ring
        rw [hpow]
        congr 1
        omega

theorem natDigitsAux_cons (fuel n : Nat) (h : n < fuel) :
    ∃ c cs, natDigitsAux fuel n = c :: cs ∧ c ≠ '-' := by
  induction fuel generalizing n with
  | zero => omega
  | succ fuel ih =>
      by_cases h10 : n < 10
      · exact ⟨digitChar n, [], by simp [natDigitsAux, if_pos h10], digitChar_ne_dash n⟩
      · have hdiv : n / 10 < n := Nat.div_lt_self (by omega) (by omega)
        obtain ⟨c, cs, hcons, hc⟩ := ih (n / 10) (by omega)
        exact ⟨c, cs ++ [digitChar (n % 10)], by simp [natDigitsAux, if_neg h10, hcons], hc⟩

theorem parseNatChars_natDigits (n : Nat) : parseNatChars (natDigits n) = some n := by
  obtain ⟨c, cs, hcons, _⟩ := natDigitsAux_cons (n + 1) n (Nat.lt_succ_self n)
  have hval := parseNatAux_natDigitsAux (n + 1) n 0 (Nat.lt_succ_self n)
  unfold natDigits
  rw [hcons] at hval ⊢
  simp only [parseNatChars, hval, Nat.zero_mul, Nat.zero_add]

theorem tokInt_renderInt (x : Int) : tokInt? (renderInt x) = some x := by
  unfold renderInt tokInt?
  by_cases hx : x < 0
  · rw [if_pos hx]
    show parseIntChars ('-' :: natDigits x.natAbs) = some x
    simp only [parseIntChars, if_true, parseNatChars_natDigits, Option.map_some']
    rw [Int.ofNat_eq_natCast]
    congr 1
    omega
  · rw [if_neg hx]
    show parseIntChars (natDigits x.toNat) = some x
    obtain ⟨c, cs, hcons, hc⟩ := natDigitsAux_cons (x.toNat + 1) x.toNat (Nat.lt_succ_self _)
    have hcons2 : natDigits x.toNat = c :: cs := hcons
    have hparse := parseNatChars_natDigits x.toNat
    rw [hcons2] at hparse ⊢
    simp only [parseIntChars, if_neg hc, hparse, Option.map_some']
    rw [Int.ofNat_eq_natCast]
    congr 1
    omega

/-! Supporting lemmas: parsing the tokens `saveToFile` writes. -/

theorem keywordKind_kindKeyword (k : NPCType) : keywordKind (kindKeyword k) = some k := by
  cases k <;> rfl

theorem parseNPC_roundtrip (k : NPCType) (nm : String) (x y : Int)
    (hx0 : 0 ≤ x) (hx5 : x ≤ 500) (hy0 : 0 ≤ y) (hy5 : y ≤ 500) :
    parseNPC (kindKeyword k) nm (renderInt x) (renderInt y) = some (createNPC k nm x y) := by
  simp only [parseNPC, tokInt_renderInt, keywordKind_kindKeyword]
  rw [if_neg (by omega)]

theorem mem_cons_good {n : NPC} {ns : List NPC} (h : ∀ m ∈ n :: ns, goodNPC m) :
    goodNPC n ∧ ∀ m ∈ ns, goodNPC m :=
  ⟨h n (List.mem_cons_self n ns), fun m hm => h m (List.mem_cons_of_mem n hm)⟩

/-! Claim theorems. -/

/-- C1 counterexample: with the registry Knight "K", Dragon "Dr", Princess "Pr",
all at (0,0), `battle 0` does NOT produce the kill Dr→Pr, and the survivor list
is not the Knight alone: the claimed outcome is false on the code. -/
theorem c1_counterexample :
    ¬ (((1, 2) ∈ (battle regC1 0).2) ∧ ((0, 1) ∈ (battle regC1 0).2) ∧
        (battle regC1 0).1 = [⟨.KNIGHT, "K", 0, 0, true⟩]) := by decide

/-- C1 (amended): for Knight "K", Dragon "Dr", Princess "Pr" at (0,0),
`battle 0` emits exactly the kill K→Dr (pair (0,1)); the Dragon is already dead
when the outer loop reaches index 1, so that whole outer iteration is skipped
and the Princess survives: the final registry is [K, Pr]. -/
theorem c1_battle_result :
    battle regC1 0 =
      ([⟨.KNIGHT, "K", 0, 0, true⟩, ⟨.PRINCESS, "Pr", 0, 0, true⟩], [(0, 1)]) := by decide

/-- C9: for Dragon "Dr", Knight "K", Princess "Pr" at (0,0), `battle 0` kills
the Dragon in pair (0,1) (kill (1,0)) and the already-dead Dragon still kills
the Princess in pair (0,2) (kill (0,2)), because the outer-loop aliveness check
ran before the Dragon died and the visitor never re-checks the killer; only the
Knight survives the purge. -/
theorem c9_dead_outer_killer :
    battle regC9 0 = ([⟨.KNIGHT, "K", 0, 0, true⟩], [(1, 0), (0, 2)]) ∧
    (battleCore regC9 0).1 =
      [⟨.DRAGON, "Dr", 0, 0, false⟩, ⟨.KNIGHT, "K", 0, 0, true⟩,
        ⟨.PRINCESS, "Pr", 0, 0, false⟩] := by decide

/-- C2 counterexample: loading the file whose first line is the out-of-range
"PRINCESS P 600 0" and whose second line is the well-formed "KNIGHT K 1 2"
yields the empty registry, not the well-formed entity; with the lines in the
other order the well-formed entity is obtained, so the result is NOT
independent of which line comes first. -/
theorem c2_counterexample :
    loadAll (badToks ++ goodToks) ≠ [⟨.KNIGHT, "K", 1, 2, true⟩] ∧
    loadAll (goodToks ++ badToks) = [⟨.KNIGHT, "K", 1, 2, true⟩] := by decide

/-- The two defining cases of one load iteration: a failing parse of the next
four tokens ends the load, a successful one contributes its entity and
continues on the remaining tokens. -/
theorem loadAll_parse_none (t n xs ys : String) (rest : List String)
    (h : parseNPC t n xs ys = none) : loadAll (t :: n :: xs :: ys :: rest) = [] := by
  simp only [loadAll, h]

theorem loadAll_parse_some (t n xs ys : String) (rest : List String) (npc : NPC)
    (h : parseNPC t n xs ys = some npc) :
    loadAll (t :: n :: xs :: ys :: rest) = npc :: loadAll rest := by
  simp only [loadAll, h]

/-- C2 (amended): load does not skip bad lines; it stops at the first failed
parse and keeps everything parsed before it.  A failing 4-token group ends the
load with the entities read so far; a successful one contributes its entity and
parsing continues. -/
theorem c2_load_stops_at_first_bad :
    (∀ t n xs ys rest, parseNPC t n xs ys = none →
        loadAll (t :: n :: xs :: ys :: rest) = []) ∧
    (∀ t n xs ys rest npc, parseNPC t n xs ys = some npc →
        loadAll (t :: n :: xs :: ys :: rest) = npc :: loadAll rest) :=
  ⟨loadAll_parse_none, loadAll_parse_some⟩

/-- C2 witness: the two directions of `c2_load_stops_at_first_bad` at the
concrete bad-first and good-first files. -/
theorem c2_witness :
    loadAll ("PRINCESS" :: "P" :: "600" :: "0" :: goodToks) = [] ∧
    loadAll ("KNIGHT" :: "K" :: "1" :: "2" :: badToks) =
      (⟨.KNIGHT, "K", 1, 2, true⟩ : NPC) :: loadAll badToks :=
  ⟨c2_load_stops_at_first_bad.1 "PRINCESS" "P" "600" "0" goodToks (by decide),
   c2_load_stops_at_first_bad.2 "KNIGHT" "K" "1" "2" badToks ⟨.KNIGHT, "K", 1, 2, true⟩
     (by decide)⟩

/-- C4: after a battle pass every remaining registry entry has `alive = true`
(the pass ends with `remove_if !isAlive`), so neither `print` nor `save` can
ever emit a dead entity: on a post-battle registry their alive filters are
no-ops and they render every entry. -/
theorem c4_dead_purged (npcs : List NPC) (range : Rat) :
    ((battle npcs range).1.all (fun n => n.alive)) = true ∧
    printLines (battle npcs range).1 = (battle npcs range).1.map renderPrint ∧
    saveTokens (battle npcs range).1 =
      ((battle npcs range).1.map saveTokensOf).flatten := by
  refine ⟨?_, ?_, ?_⟩
  · simp only [battle, List.all_eq_true]
    intro n hn
    exact (List.mem_filter.mp hn).2
  · simp only [battle, printLines, List.filter_filter, Bool.and_self]
  · simp only [battle, saveTokens, List.filter_filter, Bool.and_self]

/-- C5: `addNPC` with a coordinate outside [0,500] reports the error message
and leaves the registry untouched; with both coordinates in range it appends
exactly the requested entity (alive, fields unchanged), and the listing shows
the old lines plus the new entity's line. -/
theorem c5_add_validation (npcs : List NPC) (k : NPCType) (name : String) (x y : Int) :
    ((x < 0 ∨ x > 500 ∨ y < 0 ∨ y > 500) →
        addNPC npcs k name x y = (npcs, some coordErr)) ∧
    (¬(x < 0 ∨ x > 500 ∨ y < 0 ∨ y > 500) →
        addNPC npcs k name x y = (npcs ++ [createNPC k name x y], none) ∧
        printLines (addNPC npcs k name x y).1 =
          printLines npcs ++ [renderPrint (createNPC k name x y)]) := by
  constructor
  · intro h
    simp only [addNPC, if_pos h]
  · intro h
    refine ⟨by simp only [addNPC, if_neg h], ?_⟩
    simp [addNPC, if_neg h, printLines, List.filter_append, createNPC]

/-- C5 witness: `c5_add_validation` at the out-of-range call (600, 0) and the
in-range call (1, 2) on the empty registry. -/
theorem c5_witness :
    addNPC [] .KNIGHT "K" 600 0 = ([], some coordErr) ∧
    addNPC [] .KNIGHT "K" 1 2 = ([createNPC .KNIGHT "K" 1 2], none) :=
  ⟨(c5_add_validation [] .KNIGHT "K" 600 0).1 (by omega),
   (((c5_add_validation [] .KNIGHT "K" 1 2).2 (by omega)).1 : _)⟩

/-- C6: saving and then loading reproduces exactly the living entities, in
order, for every registry of program-creatable entities (non-empty
whitespace-free names — required for the token file format to be faithful —
and in-range coordinates, which the load-side bounds check would otherwise
reject).  The empty registry round-trips to the empty registry. -/
theorem c6_save_load_roundtrip (npcs : List NPC) (h : ∀ n ∈ npcs, goodNPC n) :
    loadAll (saveTokens npcs) = npcs.filter (fun n => n.alive) := by
  induction npcs with
  | nil => rfl
  | cons n ns ih =>
      obtain ⟨hn, hns⟩ := mem_cons_good h
      obtain ⟨-, -, hx0, hx5, hy0, hy5⟩ := hn
      by_cases ha : n.alive
      · have hsave : saveTokens (n :: ns) = saveTokensOf n ++ saveTokens ns := by
          simp [saveTokens, List.filter_cons, ha]
        have hparse := parseNPC_roundtrip n.kind n.name n.x n.y hx0 hx5 hy0 hy5
        have hrec : (⟨n.kind, n.name, n.x, n.y, true⟩ : NPC) = n := by
          cases n
          simp_all
        rw [hsave]
        show loadAll (kindKeyword n.kind :: n.name :: renderInt n.x :: renderInt n.y ::
          saveTokens ns) = _
        rw [loadAll_parse_some _ _ _ _ _ _ hparse, ih hns]
        simp [List.filter_cons, ha, createNPC, hrec]
      · have hsave : saveTokens (n :: ns) = saveTokens ns := by
          simp [saveTokens, List.filter_cons, ha]
        rw [hsave, ih hns]
        simp [List.filter_cons, ha]

/-- C6 witness: round-trip of a concrete mixed registry (a living knight, an
already-dead dragon, a living princess): loading the saved file gives back
exactly the living entities in order. -/
theorem c6_witness :
    loadAll (saveTokens
        [⟨.KNIGHT, "K", 1, 2, true⟩, ⟨.DRAGON, "D", 3, 4, false⟩,
          ⟨.PRINCESS, "P", 500, 0, true⟩]) =
      List.filter (fun n => n.alive)
        [⟨.KNIGHT, "K", 1, 2, true⟩, ⟨.DRAGON, "D", 3, 4, false⟩,
          ⟨.PRINCESS, "P", 500, 0, true⟩] :=
  c6_save_load_roundtrip
    [⟨.KNIGHT, "K", 1, 2, true⟩, ⟨.DRAGON, "D", 3, 4, false⟩,
      ⟨.PRINCESS, "P", 500, 0, true⟩] (by decide)

/-- C3: within one unordered pair, the resolver runs direction i→j, applies its
effect, and only then runs direction j→i on the updated state; whenever the
first direction kills j, the whole pair step amounts to exactly that one kill —
the freshly killed j never kills i back in the second direction of the same
pair. -/
theorem c3_pair_no_killback (npcs : List NPC) (kills : List (Nat × Nat)) (i j : Nat)
    (range : Rat) (a v : NPC) (hij : i ≠ j)
    (ha : npcs[i]? = some a) (hv : npcs[j]? = some v)
    (hkill : wouldKill a v range = true) :
    innerStep range i (npcs, kills) j =
      (npcs.set j { v with alive := false }, kills ++ [(i, j)]) := by
  have hj : j < npcs.length := (List.getElem?_eq_some.mp hv).1
  have hsplit : v.alive = true ∧
      ((a.kind = .DRAGON ∧ v.kind = .PRINCESS) ∨ (a.kind = .KNIGHT ∧ v.kind = .DRAGON)) := by
    cases hak : a.kind
    · simp only [wouldKill, hak] at hkill
      exact Bool.noConfusion hkill
    · simp only [wouldKill, hak, Bool.and_eq_true, beq_iff_eq] at hkill
      exact ⟨hkill.1.1, Or.inl ⟨rfl, hkill.2⟩⟩
    · simp only [wouldKill, hak, Bool.and_eq_true, beq_iff_eq] at hkill
      exact ⟨hkill.1.1, Or.inr ⟨rfl, hkill.2⟩⟩
  have h1 : applyVisit range (npcs, kills) i j =
      (npcs.set j { v with alive := false }, kills ++ [(i, j)]) := by
    simp only [applyVisit, ha, hv, hkill, if_true]
  have hjset : (npcs.set j { v with alive := false })[j]? =
      some { v with alive := false } :=
    List.getElem?_set_eq_of_lt _ hj
  have hiset : (npcs.set j { v with alive := false })[i]? = some a := by
    rw [List.getElem?_set_ne (Ne.symm hij)]
    exact ha
  have hback : wouldKill { v with alive := false } a range = false := by
    rcases hsplit.2 with ⟨hak, hvk⟩ | ⟨hak, hvk⟩
    · simp [wouldKill, hvk]
    · simp [wouldKill, hvk, hak]
  have h2 : applyVisit range
      (npcs.set j { v with alive := false }, kills ++ [(i, j)]) j i =
      (npcs.set j { v with alive := false }, kills ++ [(i, j)]) := by
    simp only [applyVisit, hjset, hiset, hback, Bool.false_eq_true, if_false]
  have hinner : innerStep range i (npcs, kills) j =
      applyVisit range (applyVisit range (npcs, kills) i j) j i := by
    simp only [innerStep, hv, hsplit.1, if_true]
  rw [hinner, h1, h2]

/-- C3 witness: `c3_pair_no_killback` on the pair Knight "K" / Dragon "D",
both at (0,0), with range 0: the Knight kills the Dragon in the first
direction and the pair step ends with exactly that kill. -/
theorem c3_witness :
    innerStep 0 0 ([⟨.KNIGHT, "K", 0, 0, true⟩, ⟨.DRAGON, "D", 0, 0, true⟩], []) 1 =
      ([⟨.KNIGHT, "K", 0, 0, true⟩, ⟨.DRAGON, "D", 0, 0, true⟩].set 1
          { (⟨.DRAGON, "D", 0, 0, true⟩ : NPC) with alive := false },
        [] ++ [(0, 1)]) :=
  c3_pair_no_killback [⟨.KNIGHT, "K", 0, 0, true⟩, ⟨.DRAGON, "D", 0, 0, true⟩] [] 0 1 0
    ⟨.KNIGHT, "K", 0, 0, true⟩ ⟨.DRAGON, "D", 0, 0, true⟩ (by decide) rfl rfl (by decide)

theorem foldl_preserve {α β : Type _} (P : β → Prop) (f : β → α → β) (l : List α) (b : β)
    (hb : P b) (hf : ∀ st a, P st → P (f st a)) : P (l.foldl f b) := by
  induction l generalizing b with
  | nil => exact hb
  | cons x xs ih => exact ih (f b x) (hf b x hb)

/-- C7: `battle` is a no-op — registry unchanged, no kill notifications —
whenever no ordered pair of registry entities satisfies the kill test (out of
range, or no rule-table match); in particular two Knights at distance 1 under
`battle 10` see no deaths, and a Princess attacker, a same-kind pair, or a
Knight attacking a Princess never causes an effect at any range. -/
theorem c7_battle_noop :
    (∀ (npcs : List NPC) (range : Rat),
        (∀ n ∈ npcs, n.alive = true) →
        (∀ a ∈ npcs, ∀ b ∈ npcs, wouldKill a b range = false) →
        battle npcs range = (npcs, [])) ∧
    (battle [⟨.KNIGHT, "K1", 0, 0, true⟩, ⟨.KNIGHT, "K2", 1, 0, true⟩] 10 =
      ([⟨.KNIGHT, "K1", 0, 0, true⟩, ⟨.KNIGHT, "K2", 1, 0, true⟩], [])) ∧
    (∀ (a b : NPC) (range : Rat),
        a.kind = .PRINCESS ∨ a.kind = b.kind ∨ (a.kind = .KNIGHT ∧ b.kind = .PRINCESS) →
        wouldKill a b range = false) := by
  refine ⟨?_, by decide, ?_⟩
  · intro npcs range hAlive hNoKill
    have happ : ∀ (ks : List (Nat × Nat)) (x y : Nat),
        applyVisit range (npcs, ks) x y = (npcs, ks) := by
      intro ks x y
      unfold applyVisit
      cases hx : npcs[x]? with
      | none => rfl
      | some a =>
          cases hy : npcs[y]? with
          | none => rfl
          | some v =>
              simp only [hNoKill a (List.getElem?_mem hx) v (List.getElem?_mem hy),
                Bool.false_eq_true, if_false]
    have hinner : ∀ (i : Nat) (st : List NPC × List (Nat × Nat)) (j : Nat),
        st = (npcs, ([] : List (Nat × Nat))) → innerStep range i st j = (npcs, []) := by
      intro i st j hst
      subst hst
      unfold innerStep
      dsimp only
      cases hj : npcs[j]? with
      | none => rfl
      | some vj => simp only [happ, ite_self]
    have houter : ∀ (st : List NPC × List (Nat × Nat)) (i : Nat),
        st = (npcs, ([] : List (Nat × Nat))) → outerStep range st i = (npcs, []) := by
      intro st i hst
      subst hst
      unfold outerStep
      dsimp only
      cases hi : npcs[i]? with
      | none => rfl
      | some vi =>
          have hfold : (List.range' (i + 1) (npcs.length - (i + 1))).foldl
              (innerStep range i) (npcs, []) = (npcs, []) :=
            foldl_preserve (fun st => st = (npcs, [])) (innerStep range i)
              (List.range' (i + 1) (npcs.length - (i + 1))) (npcs, []) rfl
              (fun st j hst => by rw [hst]; exact hinner i _ j rfl)
          simp only [hfold, ite_self]
    have hcore : battleCore npcs range = (npcs, []) :=
      foldl_preserve (fun st => st = (npcs, [])) (outerStep range)
        (List.range npcs.length) (npcs, []) rfl
        (fun st i hst => by rw [hst]; exact houter _ i rfl)
    simp only [battle, hcore]
    rw [List.filter_eq_self.mpr hAlive]
  · intro a b range h
    rcases h with h | h | ⟨h1, h2⟩
    · simp [wouldKill, h]
    · cases hb : b.kind
      · simp [wouldKill, h.trans hb]
      · simp [wouldKill, h.trans hb, hb]
      · simp [wouldKill, h.trans hb, hb]
    · simp [wouldKill, h1, h2]

/-- C7 witness: `c7_battle_noop` at a Knight and a Princess 100√2 apart with
range 1: no entity within range of another, battle leaves the registry as is
and emits nothing. -/
theorem c7_witness :
    battle [⟨.KNIGHT, "K", 0, 0, true⟩, ⟨.PRINCESS, "P", 100, 100, true⟩] 1 =
      ([⟨.KNIGHT, "K", 0, 0, true⟩, ⟨.PRINCESS, "P", 100, 100, true⟩], []) :=
  c7_battle_noop.1 [⟨.KNIGHT, "K", 0, 0, true⟩, ⟨.PRINCESS, "P", 100, 100, true⟩] 1
    (by decide) (by decide)

theorem evolves_refl (a : NPC) : Evolves a a := ⟨rfl, rfl, rfl, rfl, fun h => h⟩

theorem evolves_dead {a x : NPC} (h : Evolves a x) : Evolves a { x with alive := false } :=
  ⟨h.1, h.2.1, h.2.2.1, h.2.2.2.1, fun hc => Bool.noConfusion hc⟩

theorem forall2_evolves_set :
    ∀ (npcs l : List NPC) (vic : Nat) (v : NPC),
      List.Forall₂ Evolves npcs l → l[vic]? = some v →
      List.Forall₂ Evolves npcs (l.set vic { v with alive := false }) := by
  intro npcs l
  induction l generalizing npcs with
  | nil =>
      intro vic v _ hv
      simp at hv
  | cons x xs ih =>
      intro vic v hf hv
      rcases hf with _ | ⟨hax, hrest⟩
      cases vic with
      | zero =>
          rw [List.getElem?_cons_zero] at hv
          have hvx : x = v := Option.some.inj hv
          subst hvx
          exact List.Forall₂.cons (evolves_dead hax) hrest
      | succ vic =>
          rw [List.getElem?_cons_succ] at hv
          exact List.Forall₂.cons hax (ih _ vic v hrest hv)

theorem parseNPC_alive {t nm xs ys : String} {npc : NPC}
    (h : parseNPC t nm xs ys = some npc) : npc.alive = true := by
  unfold parseNPC at h
  split at h
  · split at h
    · split at h
      · exact absurd h (by simp)
      · rw [← Option.some.inj h]
        rfl
    · exact absurd h (by simp)
  · exact absurd h (by simp)

theorem loadAll_alive : ∀ (toks : List String), ((loadAll toks).all (fun n => n.alive)) = true
  | [] => rfl
  | [_] => rfl
  | [_, _] => rfl
  | [_, _, _] => rfl
  | t :: nm :: xs :: ys :: rest => by
      cases hp : parseNPC t nm xs ys with
      | some npc => simp [loadAll, hp, parseNPC_alive hp, loadAll_alive rest]
      | none => simp [loadAll, hp]

theorem battleCore_evolves (npcs : List NPC) (range : Rat) :
    List.Forall₂ Evolves npcs (battleCore npcs range).1 := by
  have happ : ∀ (st : List NPC × List (Nat × Nat)) (x y : Nat),
      List.Forall₂ Evolves npcs st.1 →
      List.Forall₂ Evolves npcs (applyVisit range st x y).1 := by
    intro st x y hst
    unfold applyVisit
    cases hx : st.1[x]? with
    | none => exact hst
    | some a =>
        cases hy : st.1[y]? with
        | none => exact hst
        | some v =>
            dsimp only
            by_cases hw : wouldKill a v range = true
            · rw [if_pos hw]
              exact forall2_evolves_set npcs st.1 y v hst hy
            · rw [if_neg hw]
              exact hst
  have hinner : ∀ (i : Nat) (st : List NPC × List (Nat × Nat)) (j : Nat),
      List.Forall₂ Evolves npcs st.1 →
      List.Forall₂ Evolves npcs (innerStep range i st j).1 := by
    intro i st j hst
    unfold innerStep
    cases hj : st.1[j]? with
    | none => exact hst
    | some vj =>
        dsimp only
        by_cases hva : vj.alive = true
        · rw [if_pos hva]
          exact happ _ j i (happ _ i j hst)
        · rw [if_neg hva]
          exact hst
  have houter : ∀ (st : List NPC × List (Nat × Nat)) (i : Nat),
      List.Forall₂ Evolves npcs st.1 →
      List.Forall₂ Evolves npcs (outerStep range st i).1 := by
    intro st i hst
    unfold outerStep
    cases hi : st.1[i]? with
    | none => exact hst
    | some vi =>
        dsimp only
        by_cases hva : vi.alive = true
        · rw [if_pos hva]
          exact foldl_preserve (fun st => List.Forall₂ Evolves npcs st.1)
            (innerStep range i) (List.range' (i + 1) (st.1.length - (i + 1))) st
            hst (fun st j h => hinner i st j h)
        · rw [if_neg hva]
          exact hst
  unfold battleCore
  exact foldl_preserve (fun st => List.Forall₂ Evolves npcs st.1)
    (outerStep range) (List.range npcs.length) (npcs, [])
    (List.forall₂_same.mpr fun a _ => evolves_refl a)
    (fun st i h => houter st i h)

/-- C10: identity fields are immutable and the alive flag only ever falls.
A battle pass relates the old and new registry slot-by-slot: kind, name, x and
y are unchanged and a slot alive afterwards was alive before (alive can only go
true→false, via `markDead`); `addNPC` either leaves the registry untouched or
appends the freshly built entity, whose alive flag starts true; entities built
by the load parser also start alive. -/
theorem c10_frame (npcs : List NPC) (range : Rat) (k : NPCType) (nm : String)
    (x y : Int) (toks : List String) :
    List.Forall₂ Evolves npcs (battleCore npcs range).1 ∧
    ((addNPC npcs k nm x y).1 = npcs ∨
      (addNPC npcs k nm x y).1 = npcs ++ [createNPC k nm x y]) ∧
    (createNPC k nm x y).alive = true ∧
    ((loadAll toks).all (fun n => n.alive)) = true := by
  refine ⟨battleCore_evolves npcs range, ?_, rfl, loadAll_alive toks⟩
  unfold addNPC
  by_cases h : x < 0 ∨ x > 500 ∨ y < 0 ∨ y > 500
  · rw [if_pos h]
    exact Or.inl rfl
  · rw [if_neg h]
    exact Or.inr rfl

/-! Supporting lemmas: the command loop consumes tokens and only stops at an
`exit` or at a failed command read. -/

theorem readTok_none_failed {s s1 : IStream} (h : readTok s = (none, s1)) :
    s1.2 = true := by
  rcases s with ⟨_ | ⟨t, ts⟩, _ | _⟩ <;> simp [readTok] at h <;> simp [← h]

theorem readTok_some_length {s : IStream} {c : String} {s1 : IStream}
    (h : readTok s = (some c, s1)) : s1.1.length + 1 = s.1.length := by
  rcases s with ⟨_ | ⟨t, ts⟩, _ | _⟩ <;> simp [readTok] at h
  rw [← h.2]
  simp

theorem readTokD_length (s : IStream) : (readTokD s).2.1.length ≤ s.1.length := by
  rcases s with ⟨_ | ⟨t, ts⟩, _ | _⟩ <;> simp [readTokD, readTok]

theorem readIntTok_length (s : IStream) : (readIntTok s).2.1.length ≤ s.1.length := by
  rcases s with ⟨_ | ⟨t, ts⟩, _ | _⟩ <;> simp [readIntTok]
  cases tokInt? t <;> simp

theorem readRatTok_length (s : IStream) : (readRatTok s).2.1.length ≤ s.1.length := by
  rcases s with ⟨_ | ⟨t, ts⟩, _ | _⟩ <;> simp [readRatTok]
  cases parseRatChars t.data <;> simp

theorem doCmd_length (cmd : String) (s : IStream) (npcs : List NPC) (fs : FS) :
    (doCmd cmd s npcs fs).1.1.length ≤ s.1.length := by
  simp only [doCmd]
  split_ifs
  · exact le_trans (readIntTok_length _) (le_trans (readIntTok_length _)
      (le_trans (readTokD_length _) (readTokD_length _)))
  · exact le_refl _
  · exact readTokD_length _
  · exact readTokD_length _
  · exact readRatTok_length _
  · exact le_refl _

theorem runLoopF_exit_shape :
    ∀ (fuel : Nat) (s : IStream) (npcs : List NPC) (fs : FS), s.1.length < fuel →
      (runLoopF fuel s npcs fs).2.2.1 = ExitReason.exitCmd ∨
      ((runLoopF fuel s npcs fs).2.2.1 = ExitReason.readEnded ∧
        (runLoopF fuel s npcs fs).2.1.2 = true) := by
  intro fuel
  induction fuel with
  | zero =>
      intro s npcs fs h
      omega
  | succ fuel ih =>
      intro s npcs fs h
      simp only [runLoopF]
      cases hr : readTok s with
      | mk o s1 =>
          cases o with
          | none =>
              simp only [hr]
              exact Or.inr ⟨by trivial, readTok_none_failed hr⟩
          | some cmd =>
              simp only [hr]
              by_cases hexit : cmd = "exit"
              · rw [if_pos hexit]
                exact Or.inl rfl
              · rw [if_neg hexit]
                have hlen : (doCmd cmd s1 npcs fs).1.1.length < fuel := by
                  have h1 := readTok_some_length hr
                  have h2 := doCmd_length cmd s1 npcs fs
                  omega
                exact ih _ _ _ hlen

theorem runLoopF_congr :
    ∀ (f1 f2 : Nat) (s : IStream) (npcs : List NPC) (fs : FS),
      s.1.length < f1 → s.1.length < f2 →
      runLoopF f1 s npcs fs = runLoopF f2 s npcs fs := by
  intro f1
  induction f1 with
  | zero =>
      intro f2 s npcs fs h1 h2
      omega
  | succ f1 ih =>
      intro f2 s npcs fs h1 h2
      cases f2 with
      | zero => omega
      | succ f2 =>
          simp only [runLoopF]
          cases hr : readTok s with
          | mk o s1 =>
              cases o with
              | none => simp only [hr]
              | some cmd =>
                  simp only [hr]
                  by_cases hexit : cmd = "exit"
                  · rw [if_pos hexit, if_pos hexit]
                  · rw [if_neg hexit, if_neg hexit]
                    have hs1 := readTok_some_length hr
                    have hd := doCmd_length cmd s1 npcs fs
                    exact ih f2 _ _ _ (by omega) (by omega)

/-- C8 counterexample: on the input `add knight K 5 abc print`, the failed
integer extraction of "abc" puts the stream into the fail state, so the next
command read fails and the loop stops with the tokens "abc print" still
unconsumed — termination neither by the `exit` command nor by exhaustion of
the input. -/
theorem c8_counterexample :
    (runLoop (c8input, false) [] []).2.2.1 ≠ ExitReason.exitCmd ∧
    (runLoop (c8input, false) [] []).2.1.1 ≠ [] := by decide

/-- C8 (amended): the loop always terminates, either through the `exit`
command or through the command read failing, and the latter only with the
stream in the fail state (set at end of input, or earlier by a malformed
numeric argument, possibly leaving input unconsumed); `main` always returns
exit code 0 — no input is fatal. -/
theorem c8_loop_exit (toks : List String) (npcs : List NPC) (fs : FS) :
    (mainRun toks).1 = 0 ∧
    ((runLoop (toks, false) npcs fs).2.2.1 = ExitReason.exitCmd ∨
      ((runLoop (toks, false) npcs fs).2.2.1 = ExitReason.readEnded ∧
        (runLoop (toks, false) npcs fs).2.1.2 = true)) :=
  ⟨rfl, runLoopF_exit_shape (toks.length + 1) (toks, false) npcs fs (Nat.lt_succ_self _)⟩

end Lab6
